import Mathlib

/-
Verification of the stock-portfolio capital gains engine and the
dashboard/price-resolution computations of the frontend.

The React frontend (src/frontend) is the code present in the repository;
the Python backend that implements the capital gains engine is not part
of the source tree, so the engine is modelled from the specification
(sections 3, 4, 6, 7 of spec.md) as indicated on each definition.
-/

set_option allowUnsafeReducibility true

attribute [semireducible] Rat.mul Rat.add Rat.sub Rat.inv Rat.ofScientific

namespace StockApp

/-- Modelled from the spec: calendar dates as used in `transaction_date`
and `acquisition_date` (the backend engine holding these is missing from
the source tree). -/
structure Date where
  year : Nat
  month : Nat
  day : Nat
deriving DecidableEq

/-- Modelled from the spec: serial day number of a civil date (standard
days-from-civil algorithm), used for the calendar-day difference
`holding_period_days = sell.transaction_date - lot.acquisition_date`. -/
def Date.toDays (d : Date) : Nat :=
  let y := if d.month ≤ 2 then d.year - 1 else d.year
  let era := y / 400
  let yoe := y % 400
  let mp := if d.month ≤ 2 then d.month + 9 else d.month - 3
  let doy := (153 * mp + 2) / 5 + d.day - 1
  let doe := yoe * 365 + yoe / 4 - yoe / 100 + doy
  era * 146097 + doe

/-- Calendar order on dates (year, then month, then day). -/
def dateLe (a b : Date) : Prop :=
  a.year < b.year ∨ (a.year = b.year ∧
    (a.month < b.month ∨ (a.month = b.month ∧ a.day ≤ b.day)))

instance : DecidableRel dateLe := fun a b =>
  inferInstanceAs (Decidable (_ ∨ _))

/-- A well-formed calendar date (bounds sufficient for the financial-year
characterisation). -/
def validDate (d : Date) : Prop :=
  1 ≤ d.year ∧ 1 ≤ d.month ∧ d.month ≤ 12 ∧ 1 ≤ d.day ∧ d.day ≤ 31

instance : DecidablePred validDate := fun d =>
  inferInstanceAs (Decidable (_ ∧ _))

/-- Modelled from the spec: the Indian financial year containing a date;
financial year Y spans Y-04-01 through (Y+1)-03-31. -/
def fyOf (d : Date) : Nat :=
  if 4 ≤ d.month then d.year else d.year - 1

/-- Modelled from the spec: transaction type enum. -/
inductive TxType
  | BUY
  | SELL
deriving DecidableEq

/-- Modelled from the spec: an immutable transaction record
{ id, security_id, type, quantity, price_per_unit, transaction_date }
as consumed by the engine (section 6). -/
structure Transaction where
  id : Nat
  security_id : Nat
  type : TxType
  quantity : Nat
  price_per_unit : Rat
  transaction_date : Date
deriving DecidableEq

/-- Ordering key for deterministic replay: date first, transaction id as
tie-break. -/
def txKey (t : Transaction) : Nat × Nat :=
  (t.transaction_date.toDays, t.id)

/-- Lexicographic comparison of (day-number, id) keys. -/
def keyLe (p q : Nat × Nat) : Prop :=
  p.1 < q.1 ∨ (p.1 = q.1 ∧ p.2 ≤ q.2)

instance : DecidableRel keyLe := fun p q =>
  inferInstanceAs (Decidable (_ ∨ _))

/-- Replay order on transactions. -/
def txLe (a b : Transaction) : Prop :=
  keyLe (txKey a) (txKey b)

instance : DecidableRel txLe := fun a b =>
  inferInstanceAs (Decidable (keyLe _ _))

instance : IsTotal Transaction txLe :=
  ⟨fun a b => by unfold txLe keyLe; omega⟩

instance : IsTrans Transaction txLe :=
  ⟨fun a b c => by unfold txLe keyLe; omega⟩

/-- Modelled from the spec: an open BUY lot tracked per
(user, security): acquisition date, cost, original and remaining
quantity (section 3). -/
structure Lot where
  buy_id : Nat
  security_id : Nat
  acquisition_date : Date
  cost_per_unit : Rat
  original_quantity : Nat
  remaining_quantity : Nat
deriving DecidableEq

/-- FIFO ordering key of a lot: acquisition date, tie-broken by the
creating BUY transaction id (section 4.1). -/
def lotKey (l : Lot) : Nat × Nat :=
  (l.acquisition_date.toDays, l.buy_id)

/-- FIFO order on lots. -/
def lotLe (a b : Lot) : Prop :=
  keyLe (lotKey a) (lotKey b)

instance : DecidableRel lotLe := fun a b =>
  inferInstanceAs (Decidable (keyLe _ _))

/-- Modelled from the spec: ordered insertion keeping the lot queue
sorted by acquisition date, tie-broken by transaction id (section 4.1). -/
def insertLot (l : Lot) : List Lot → List Lot
  | [] => [l]
  | x :: xs => if lotLe l x then l :: x :: xs else x :: insertLot l xs

/-- Modelled from the spec: `consume(quantity)` greedily drains the
oldest lots with remaining quantity until the requested quantity is
satisfied or lots are exhausted; returns the (lot, quantity_taken)
pairs (with the lot as it stood before draining) and the updated queue,
retiring fully drained lots (sections 4.1 and 3). -/
def consume : List Lot → Nat → List (Lot × Nat) × List Lot
  | [], _ => ([], [])
  | l :: ls, need =>
    if need = 0 then ([], l :: ls)
    else if l.remaining_quantity = 0 then consume ls need
    else if l.remaining_quantity ≤ need then
      let res := consume ls (need - l.remaining_quantity)
      ((l, l.remaining_quantity) :: res.1, res.2)
    else
      ([(l, need)], { l with remaining_quantity := l.remaining_quantity - need } :: ls)

/-- Modelled from the spec: the structured oversell error carrying the
offending transaction, its security, and the shortfall amount
(section 7). -/
structure InsufficientLotsError where
  transaction_id : Nat
  security_id : Nat
  shortfall : Nat
deriving DecidableEq

/-- Modelled from the spec: holding-period classification enum. -/
inductive Term
  | SHORT
  | LONG
deriving DecidableEq

/-- Modelled from the spec: the 365-day long-term policy constant
(section 4.3). -/
def longTermThresholdDays : Nat := 365

/-- Modelled from the spec: the pure classifier
`term = LONG if holding_period_days > 365 else SHORT` (section 4.3). -/
def classify (days : Nat) : Term :=
  if longTermThresholdDays < days then Term.LONG else Term.SHORT

/-- Modelled from the spec: a Match record as produced by the FIFO
matcher (section 3): all fields are filled at creation time and the
record is immutable. -/
structure Match where
  security_id : Nat
  buy_transaction_ref : Nat
  sell_transaction_ref : Nat
  quantity_matched : Nat
  buy_price : Rat
  sell_price : Rat
  acquisition_date : Date
  sell_date : Date
  gain_loss : Rat
  holding_period_days : Nat
  term : Term
deriving DecidableEq

/-- FIFO ordering key of a match: acquisition date of the consumed lot,
tie-broken by the BUY transaction id. -/
def matchKey (m : Match) : Nat × Nat :=
  (m.acquisition_date.toDays, m.buy_transaction_ref)

/-- Modelled from the spec: building one Match from a
(lot, quantity_taken) pair of a SELL (section 4.2):
buy_price = lot.cost_per_unit, sell_price = sell.price_per_unit,
gain_loss = quantity_taken * (sell_price - buy_price),
holding_period_days = sell date - acquisition date in calendar days. -/
def mkMatch (sell : Transaction) (l : Lot) (take : Nat) : Match :=
  let days := sell.transaction_date.toDays - l.acquisition_date.toDays
  { security_id := sell.security_id
    buy_transaction_ref := l.buy_id
    sell_transaction_ref := sell.id
    quantity_matched := take
    buy_price := l.cost_per_unit
    sell_price := sell.price_per_unit
    acquisition_date := l.acquisition_date
    sell_date := sell.transaction_date
    gain_loss := (take : Rat) * (sell.price_per_unit - l.cost_per_unit)
    holding_period_days := days
    term := classify days }

/-- Modelled from the spec: the FIFO matcher for one SELL (section 4.2):
calls `consume(sell.quantity)`; if the drained quantity falls short of
the SELL quantity this is a hard `InsufficientLotsError`, otherwise one
Match per (lot, quantity_taken) pair is emitted. -/
def matchSell (lots : List Lot) (sell : Transaction) :
    Except InsufficientLotsError (List Match × List Lot) :=
  let res := consume lots sell.quantity
  let taken := (res.1.map (fun p => p.2)).sum
  if taken < sell.quantity then
    Except.error ⟨sell.id, sell.security_id, sell.quantity - taken⟩
  else
    Except.ok (res.1.map (fun p => mkMatch sell p.1 p.2), res.2)

/-- Modelled from the spec: replay state holding the per-security lot
queues and the matches accumulated so far (sections 4.1 and 4.5). -/
structure ReplayState where
  queues : List (Nat × List Lot)
  «matches» : List Match

/-- Lot queue of one security (empty when the security has no queue
yet). -/
def getQueue (qs : List (Nat × List Lot)) (sid : Nat) : List Lot :=
  match qs.find? (fun p => p.1 == sid) with
  | some p => p.2
  | none => []

/-- Replace (or create) the lot queue of one security. -/
def setQueue (qs : List (Nat × List Lot)) (sid : Nat) (q : List Lot) :
    List (Nat × List Lot) :=
  match qs with
  | [] => [(sid, q)]
  | p :: ps => if p.1 == sid then (sid, q) :: ps else p :: setQueue ps sid q

/-- Modelled from the spec: processing one transaction during replay
(section 4.5): a BUY creates a lot in its security queue, a SELL is fed
to the FIFO matcher and its matches are appended. -/
def step (st : ReplayState) (t : Transaction) :
    Except InsufficientLotsError ReplayState :=
  match t.type with
  | TxType.BUY =>
    let lot : Lot :=
      { buy_id := t.id
        security_id := t.security_id
        acquisition_date := t.transaction_date
        cost_per_unit := t.price_per_unit
        original_quantity := t.quantity
        remaining_quantity := t.quantity }
    Except.ok
      { st with
        queues := setQueue st.queues t.security_id
          (insertLot lot (getQueue st.queues t.security_id)) }
  | TxType.SELL =>
    match matchSell (getQueue st.queues t.security_id) t with
    | Except.error e => Except.error e
    | Except.ok (ms, rest) =>
      Except.ok
        { queues := setQueue st.queues t.security_id rest
          «matches» := st.«matches» ++ ms }

/-- Modelled from the spec: chronological replay of a transaction list;
any error aborts the whole computation (section 4.5). -/
def replayAux (st : ReplayState) :
    List Transaction → Except InsufficientLotsError ReplayState
  | [] => Except.ok st
  | t :: ts =>
    match step st t with
    | Except.error e => Except.error e
    | Except.ok st1 => replayAux st1 ts

/-- Deterministic ordering of the input snapshot by date, tie-broken by
transaction id. -/
def sortTxs (txs : List Transaction) : List Transaction :=
  List.insertionSort txLe txs

/-- Modelled from the spec: the full replay of a user transaction
history producing the Match list, or an `InsufficientLotsError`
aborting the entire report (sections 4.5 and 7). -/
def replay (txs : List Transaction) :
    Except InsufficientLotsError (List Match) :=
  (replayAux ⟨[], []⟩ (sortTxs txs)).map (fun st => st.«matches»)

/-- Modelled from the spec: per-security breakdown of a financial-year
report (section 3). -/
structure SecurityBreakdown where
  security_id : Nat
  total_gain_loss : Rat
  short_term_gain_loss : Rat
  long_term_gain_loss : Rat
  «matches» : List Match
deriving DecidableEq

/-- Modelled from the spec: the externally consumed report shape
(section 3). -/
structure FinancialYearReport where
  financial_year : Nat
  total_gain_loss : Rat
  short_term_gain_loss : Rat
  long_term_gain_loss : Rat
  securities : List SecurityBreakdown
deriving DecidableEq

/-- First-occurrence deduplication (deterministic grouping order for
the aggregator). -/
def dedupFirst (seen : List Nat) : List Nat → List Nat
  | [] => []
  | a :: l => if a ∈ seen then dedupFirst seen l else a :: dedupFirst (a :: seen) l

/-- Gains of the matches classified with the given term. -/
def termSum (t : Term) (ms : List Match) : Rat :=
  ((ms.filter (fun m => m.term == t)).map (fun m => m.gain_loss)).sum

/-- Modelled from the spec: per-security subtotal over the matches of a
financial year (section 4.4). -/
def mkBreakdown (sid : Nat) (ms : List Match) : SecurityBreakdown :=
  let sms := ms.filter (fun m => m.security_id == sid)
  { security_id := sid
    total_gain_loss := (sms.map (fun m => m.gain_loss)).sum
    short_term_gain_loss := termSum Term.SHORT sms
    long_term_gain_loss := termSum Term.LONG sms
    «matches» := sms }

/-- Modelled from the spec: `computeReport(user, financial_year)`
(sections 4.4, 4.5, 6): replays the history, keeps the matches whose
sell date falls in the requested financial year, groups them by
security (securities without matches are omitted) and rolls up the
portfolio-wide totals. -/
def computeReport (fy : Nat) (txs : List Transaction) :
    Except InsufficientLotsError FinancialYearReport :=
  (replay txs).map (fun allMatches =>
    let ms := allMatches.filter (fun m => fyOf m.sell_date == fy)
    let sids := dedupFirst [] (ms.map (fun m => m.security_id))
    { financial_year := fy
      total_gain_loss := (ms.map (fun m => m.gain_loss)).sum
      short_term_gain_loss := termSum Term.SHORT ms
      long_term_gain_loss := termSum Term.LONG ms
      securities := sids.map (fun sid => mkBreakdown sid ms) })

/-- One entry of the portfolio summary consumed by the dashboard
(src/frontend/src/pages/Dashboard.js): quantity held and total amount
invested for one security. -/
structure StockHolding where
  quantity : Rat
  total_invested : Rat
deriving DecidableEq

/-- The derived columns of one row of the dashboard holdings table. -/
structure HoldingRow where
  avgPrice : Rat
  currentPrice : Rat
  pnl : Rat
  pnlPercent : Rat
deriving DecidableEq

/-- Embedding of Dashboard.js lines 366-371: per-holding derived
values; average and current price divide only under a quantity > 0
guard, the gain percentage only under a total_invested > 0 guard. -/
def holdingRow (stock : StockHolding) (currentValue : Rat) : HoldingRow :=
  { currentPrice := if 0 < stock.quantity then currentValue / stock.quantity else 0
    avgPrice := if 0 < stock.quantity then stock.total_invested / stock.quantity else 0
    pnl := currentValue - stock.total_invested
    pnlPercent :=
      if 0 < stock.total_invested then
        (currentValue - stock.total_invested) / stock.total_invested * 100
      else 0 }

/-- Division that refuses a zero divisor; used to express that the
dashboard computations never divide by zero. -/
def safeDiv (a b : Rat) : Option Rat :=
  if b = 0 then none else some (a / b)

/-- The same row computation as `holdingRow`, with every division
routed through `safeDiv` so that any division by zero would surface as
`none`. -/
def holdingRowChecked (stock : StockHolding) (currentValue : Rat) :
    Option HoldingRow := do
  let currentPrice ←
    if 0 < stock.quantity then safeDiv currentValue stock.quantity else some 0
  let avgPrice ←
    if 0 < stock.quantity then safeDiv stock.total_invested stock.quantity else some 0
  let pnl := currentValue - stock.total_invested
  let pnlPercent ←
    if 0 < stock.total_invested then
      (safeDiv pnl stock.total_invested).map (fun x => x * 100)
    else some 0
  some ⟨avgPrice, currentPrice, pnl, pnlPercent⟩

/-- Embedding of Dashboard.js lines 184-193: portfolio-wide totals;
the percentage divides only under a totalInvested > 0 guard. Returns
(totalInvested, totalGains, totalGainsPercent). -/
def portfolioSummary (holdings : List StockHolding) (realized unrealized : Rat) :
    Rat × Rat × Rat :=
  let totalInvested := (holdings.map (fun s => s.total_invested)).sum
  let totalGains := realized + unrealized
  let totalGainsPercent :=
    if 0 < totalInvested then totalGains / totalInvested * 100 else 0
  (totalInvested, totalGains, totalGainsPercent)

/-- The same summary computation as `portfolioSummary`, with the
division routed through `safeDiv`. -/
def portfolioSummaryChecked (holdings : List StockHolding)
    (realized unrealized : Rat) : Option (Rat × Rat × Rat) := do
  let totalInvested := (holdings.map (fun s => s.total_invested)).sum
  let totalGains := realized + unrealized
  let totalGainsPercent ←
    if 0 < totalInvested then
      (safeDiv totalGains totalInvested).map (fun x => x * 100)
    else some 0
  some (totalInvested, totalGains, totalGainsPercent)

/-- The lookup stages of the price waterfall in Dashboard.js
fetchSecurityPrice; FALLBACK appears in the source only as the display
default for an empty method string. -/
inductive PriceMethod
  | TICKER
  | ISIN
  | FALLBACK
deriving DecidableEq

/-- Environment of one fetchSecurityPrice call: whether a ticker and an
ISIN are available, and what each endpoint would answer (none models a
failed or non-ok fetch). -/
structure PriceEnv where
  hasTicker : Bool
  hasIsin : Bool
  tickerResp : Option Rat
  isinResp : Option Rat
deriving DecidableEq

/-- JavaScript falsiness of the price variable: null (none) and 0 are
falsy. -/
def jsFalsy : Option Rat → Bool
  | none => true
  | some p => p == 0

/-- Outcome stored into priceData by fetchSecurityPrice: the price (none
models the N/A display value), the method that produced it, and the
error flag. -/
structure PriceOutcome where
  price : Option Rat
  method : Option PriceMethod
  error : Bool
deriving DecidableEq

/-- Embedding of Dashboard.js lines 19-89 (fetchSecurityPrice): the
ticker endpoint is queried when a ticker exists; the ISIN endpoint is
queried when the price is still falsy and an ISIN exists; the stored
outcome keeps the price or marks the entry as unavailable. The first
component lists the lookups actually performed. -/
def fetchSecurityPrice (env : PriceEnv) : List PriceMethod × PriceOutcome :=
  let stage1 : Option Rat × Option PriceMethod :=
    if env.hasTicker then
      match env.tickerResp with
      | some p => (some p, some PriceMethod.TICKER)
      | none => (none, none)
    else (none, none)
  let attempts1 : List PriceMethod := if env.hasTicker then [PriceMethod.TICKER] else []
  let doIsin := jsFalsy stage1.1 && env.hasIsin
  let stage2 : Option Rat × Option PriceMethod :=
    if doIsin then
      match env.isinResp with
      | some p => (some p, some PriceMethod.ISIN)
      | none => stage1
    else stage1
  (attempts1 ++ (if doIsin then [PriceMethod.ISIN] else []),
   { price := if jsFalsy stage2.1 then none else stage2.1
     method := stage2.2
     error := jsFalsy stage2.1 })

/-- The first BUY of the FIFO worked example of section 8 of the spec:
100 units at 100 on 2023-01-01. -/
def fifoBuy1 : Transaction := ⟨1, 1, TxType.BUY, 100, 100, ⟨2023, 1, 1⟩⟩

/-- The second BUY of the FIFO worked example: 50 units at 120 on
2023-06-01. -/
def fifoBuy2 : Transaction := ⟨2, 1, TxType.BUY, 50, 120, ⟨2023, 6, 1⟩⟩

/-- The SELL of the FIFO worked example: 120 units at 150 on
2024-02-01. -/
def fifoSell : Transaction := ⟨3, 1, TxType.SELL, 120, 150, ⟨2024, 2, 1⟩⟩

/-- The FIFO worked example transaction history. -/
def fifoExampleTxs : List Transaction := [fifoBuy1, fifoBuy2, fifoSell]

/-- The first match the engine produces on the FIFO worked example:
100 units from the 2023-01-01 lot, held 396 days, long-term. -/
def fifoMatch1 : Match :=
  { security_id := 1
    buy_transaction_ref := 1
    sell_transaction_ref := 3
    quantity_matched := 100
    buy_price := 100
    sell_price := 150
    acquisition_date := ⟨2023, 1, 1⟩
    sell_date := ⟨2024, 2, 1⟩
    gain_loss := 5000
    holding_period_days := 396
    term := Term.LONG }

/-- The second match the engine produces on the FIFO worked example:
20 units from the 2023-06-01 lot, held 245 days, short-term. -/
def fifoMatch2 : Match :=
  { security_id := 1
    buy_transaction_ref := 2
    sell_transaction_ref := 3
    quantity_matched := 20
    buy_price := 120
    sell_price := 150
    acquisition_date := ⟨2023, 6, 1⟩
    sell_date := ⟨2024, 2, 1⟩
    gain_loss := 600
    holding_period_days := 245
    term := Term.SHORT }

/-- Match list of the FIFO worked example. -/
def fifoExampleMatches : List Match := [fifoMatch1, fifoMatch2]

/-- Loss-handling example of section 8: BUY 10 at 200, later SELL 10 at
150. -/
def lossExampleTxs : List Transaction :=
  [⟨1, 1, TxType.BUY, 10, 200, ⟨2023, 5, 1⟩⟩,
   ⟨2, 1, TxType.SELL, 10, 150, ⟨2023, 6, 1⟩⟩]

/-- The single match of the loss-handling example: held 31 days,
short-term, gain -500. -/
def lossExampleMatch : Match :=
  { security_id := 1
    buy_transaction_ref := 1
    sell_transaction_ref := 2
    quantity_matched := 10
    buy_price := 200
    sell_price := 150
    acquisition_date := ⟨2023, 5, 1⟩
    sell_date := ⟨2023, 6, 1⟩
    gain_loss := -500
    holding_period_days := 31
    term := Term.SHORT }

/-- Oversell example of section 8 extended with a second, healthy
security: BUY 10 then SELL 15 of security 1, and a BUY of security 2. -/
def oversellExampleTxs : List Transaction :=
  [⟨1, 1, TxType.BUY, 10, 100, ⟨2023, 5, 1⟩⟩,
   ⟨2, 1, TxType.SELL, 15, 90, ⟨2023, 6, 1⟩⟩,
   ⟨3, 2, TxType.BUY, 5, 10, ⟨2023, 7, 1⟩⟩]

instance {ε α : Type} [DecidableEq ε] [DecidableEq α] : DecidableEq (Except ε α) :=
  fun a b =>
    match a, b with
    | Except.ok x, Except.ok y =>
      if h : x = y then isTrue (by rw [h])
      else isFalse (fun hh => h (by cases hh; rfl))
    | Except.error x, Except.error y =>
      if h : x = y then isTrue (by rw [h])
      else isFalse (fun hh => h (by cases hh; rfl))
    | Except.ok _, Except.error _ => isFalse (fun hh => by cases hh)
    | Except.error _, Except.ok _ => isFalse (fun hh => by cases hh)

/-- Every queue held in a replay state is sorted in FIFO order. -/
def InvQ (st : ReplayState) : Prop :=
  ∀ p ∈ st.queues, List.Pairwise lotLe p.2

theorem lotLe_total (a b : Lot) : lotLe a b ∨ lotLe b a := by
  unfold lotLe keyLe; omega

theorem lotLe_trans {a b c : Lot} (h1 : lotLe a b) (h2 : lotLe b c) : lotLe a c := by
  unfold lotLe keyLe at *; omega

theorem mem_insertLot {y l : Lot} {q : List Lot} :
    y ∈ insertLot l q ↔ y = l ∨ y ∈ q := by
  induction q with
  | nil => simp [insertLot]
  | cons x xs ih =>
    simp only [insertLot]
    split
    · simp [List.mem_cons]
    · simp [List.mem_cons, ih]; tauto

theorem insertLot_pairwise {l : Lot} {q : List Lot}
    (h : List.Pairwise lotLe q) : List.Pairwise lotLe (insertLot l q) := by
  induction q with
  | nil => simp [insertLot]
  | cons x xs ih =>
    rcases h with _ | ⟨hx, hxs⟩
    simp only [insertLot]
    split
    · rename_i hlx
      refine List.Pairwise.cons ?_ (List.Pairwise.cons hx hxs)
      intro y hy
      rcases List.mem_cons.1 hy with rfl | hmem
      · exact hlx
      · exact lotLe_trans hlx (hx y hmem)
    · rename_i hlx
      refine List.Pairwise.cons ?_ (ih hxs)
      intro y hy
      rcases mem_insertLot.1 hy with rfl | hmem
      · rcases lotLe_total y x with h1 | h1
        · exact absurd h1 hlx
        · exact h1
      · exact hx y hmem

theorem consume_sum (lots : List Lot) (need : Nat) :
    (((consume lots need).1).map (fun p => p.2)).sum
      = min need ((lots.map (fun l => l.remaining_quantity)).sum) := by
  induction lots generalizing need with
  | nil => simp [consume]
  | cons l ls ih =>
    simp only [consume]
    split_ifs with h0 hz hle
    · simp [h0]
    · simpa [hz] using ih need
    · simpa using by rw [ih]; omega
    · simp; omega

theorem consume_fst_mem (lots : List Lot) (need : Nat) :
    ∀ p ∈ (consume lots need).1, p.1 ∈ lots := by
  induction lots generalizing need with
  | nil => simp [consume]
  | cons l ls ih =>
    intro p hp
    simp only [consume] at hp
    split_ifs at hp with h0 hz hle
    · simp at hp
    · exact List.mem_cons_of_mem _ (ih need p hp)
    · rcases List.mem_cons.1 hp with rfl | hmem
      · exact List.mem_cons_self _ _
      · exact List.mem_cons_of_mem _ (ih _ p hmem)
    · simp only [List.mem_singleton] at hp
      subst hp
      exact List.mem_cons_self _ _

theorem consume_chain (lots : List Lot) (need : Nat)
    (h : List.Pairwise lotLe lots) :
    List.Chain' (fun a b => lotLe a.1 b.1) (consume lots need).1 := by
  induction lots generalizing need with
  | nil => simp [consume]
  | cons l ls ih =>
    rcases h with _ | ⟨hx, hxs⟩
    simp only [consume]
    split_ifs with h0 hz hle
    · simp
    · exact ih need hxs
    · refine List.chain'_cons'.2 ⟨?_, ih _ hxs⟩
      intro y hy
      exact hx y.1 (consume_fst_mem _ _ y (List.mem_of_mem_head? hy))
    · simp

theorem consume_drain (lots : List Lot) (need : Nat) :
    ∀ x ∈ ((consume lots need).1).dropLast, x.2 = x.1.remaining_quantity := by
  induction lots generalizing need with
  | nil => simp [consume]
  | cons l ls ih =>
    intro x hx
    simp only [consume] at hx
    split_ifs at hx with h0 hz hle
    · simp at hx
    · exact ih need x hx
    · rcases hr : (consume ls (need - l.remaining_quantity)).1 with _ | ⟨a, ts⟩
      · rw [hr] at hx; simp at hx
      · rw [hr, List.dropLast_cons₂] at hx
        rcases List.mem_cons.1 hx with rfl | hmem
        · rfl
        · exact ih _ x (by rw [hr]; exact hmem)
    · simp at hx

theorem consume_rest_pairwise (lots : List Lot) (need : Nat)
    (h : List.Pairwise lotLe lots) :
    List.Pairwise lotLe (consume lots need).2 := by
  induction lots generalizing need with
  | nil => simp [consume]
  | cons l ls ih =>
    rcases h with _ | ⟨hx, hxs⟩
    simp only [consume]
    split_ifs with h0 hz hle
    · exact List.Pairwise.cons hx hxs
    · exact ih need hxs
    · exact ih _ hxs
    · exact List.Pairwise.cons (fun y hy => hx y hy) hxs

theorem consume_fst_take (lots : List Lot) (need : Nat) :
    (consume lots need).1.map (fun p => p.1)
      = (lots.filter (fun l => 0 < l.remaining_quantity)).take
          ((consume lots need).1.length) := by
  induction lots generalizing need with
  | nil => simp [consume]
  | cons l ls ih =>
    simp only [consume]
    split_ifs with h0 hz hle
    · simp
    · simp only [List.filter_cons, hz, Nat.lt_irrefl, decide_False,
        Bool.false_eq_true, if_false]
      exact ih need
    · have hpos : 0 < l.remaining_quantity := Nat.pos_of_ne_zero hz
      simp only [List.filter_cons, hpos, decide_True, if_true, List.map_cons,
        List.length_cons, List.take_succ_cons]
      rw [ih]
    · have hpos : 0 < l.remaining_quantity := Nat.pos_of_ne_zero hz
      simp [List.filter_cons, hpos]

theorem classify_eq_long (d : Nat) :
    classify d = Term.LONG ↔ longTermThresholdDays < d := by
  unfold classify
  split_ifs with h
  · simp [h]
  · simp [h]

theorem matchSell_ok_elim {lots : List Lot} {s : Transaction}
    {ms : List Match} {rest : List Lot}
    (h : matchSell lots s = Except.ok (ms, rest)) :
    ms = (consume lots s.quantity).1.map (fun p => mkMatch s p.1 p.2) ∧
    rest = (consume lots s.quantity).2 ∧
    s.quantity ≤ (((consume lots s.quantity).1).map (fun p => p.2)).sum := by
  simp only [matchSell] at h
  by_cases hlt :
      (((consume lots s.quantity).1).map (fun p => p.2)).sum < s.quantity
  · rw [if_pos hlt] at h
    cases h
  · rw [if_neg hlt] at h
    simp only [Except.ok.injEq, Prod.mk.injEq] at h
    exact ⟨h.1.symm, h.2.symm, by omega⟩

theorem matchSell_ok_sum {lots : List Lot} {s : Transaction}
    {ms : List Match} {rest : List Lot}
    (h : matchSell lots s = Except.ok (ms, rest)) :
    (ms.map (fun m => m.quantity_matched)).sum = s.quantity := by
  obtain ⟨hms, -, hge⟩ := matchSell_ok_elim h
  subst hms
  have hsum := consume_sum lots s.quantity
  have heq : ((consume lots s.quantity).1.map
      (fun p => mkMatch s p.1 p.2)).map (fun m => m.quantity_matched)
      = (consume lots s.quantity).1.map (fun p => p.2) := by
    rw [List.map_map]; rfl
  rw [heq]
  omega

theorem matchSell_ok_refs {lots : List Lot} {s : Transaction}
    {ms : List Match} {rest : List Lot}
    (h : matchSell lots s = Except.ok (ms, rest)) :
    ∀ m ∈ ms, m.sell_transaction_ref = s.id := by
  obtain ⟨hms, -, -⟩ := matchSell_ok_elim h
  subst hms
  intro m hm
  obtain ⟨p, hp, rfl⟩ := List.mem_map.1 hm
  rfl

theorem matchSell_ok_props {lots : List Lot} {s : Transaction}
    {ms : List Match} {rest : List Lot}
    (h : matchSell lots s = Except.ok (ms, rest)) :
    ∀ m ∈ ms,
      m.gain_loss = (m.quantity_matched : Rat) * (m.sell_price - m.buy_price) ∧
      (m.term = Term.LONG ↔ longTermThresholdDays < m.holding_period_days) := by
  obtain ⟨hms, -, -⟩ := matchSell_ok_elim h
  subst hms
  intro m hm
  obtain ⟨p, hp, rfl⟩ := List.mem_map.1 hm
  exact ⟨rfl, classify_eq_long _⟩

theorem matchSell_ok_chain {lots : List Lot} {s : Transaction}
    {ms : List Match} {rest : List Lot}
    (hq : List.Pairwise lotLe lots)
    (h : matchSell lots s = Except.ok (ms, rest)) :
    List.Chain' (fun a b => keyLe (matchKey a) (matchKey b)) ms := by
  obtain ⟨hms, -, -⟩ := matchSell_ok_elim h
  subst hms
  exact (List.chain'_map _).2 (consume_chain lots s.quantity hq)

theorem matchSell_error_of_shortfall {lots : List Lot} {s : Transaction}
    (h : (lots.map (fun l => l.remaining_quantity)).sum < s.quantity) :
    matchSell lots s = Except.error
      ⟨s.id, s.security_id,
        s.quantity - (lots.map (fun l => l.remaining_quantity)).sum⟩ := by
  have hsum := consume_sum lots s.quantity
  simp only [matchSell]
  rw [hsum, if_pos (by omega)]
  congr 1
  simp only [InsufficientLotsError.mk.injEq, true_and]
  omega

theorem getQueue_pairwise {qs : List (Nat × List Lot)} {sid : Nat}
    (h : ∀ p ∈ qs, List.Pairwise lotLe p.2) :
    List.Pairwise lotLe (getQueue qs sid) := by
  unfold getQueue
  cases hf : qs.find? (fun p => p.1 == sid) with
  | none => exact List.Pairwise.nil
  | some p => exact h p (List.mem_of_find?_eq_some hf)

theorem setQueue_pairwise {qs : List (Nat × List Lot)} {sid : Nat} {q : List Lot}
    (h : ∀ p ∈ qs, List.Pairwise lotLe p.2) (hq : List.Pairwise lotLe q) :
    ∀ p ∈ setQueue qs sid q, List.Pairwise lotLe p.2 := by
  induction qs with
  | nil =>
    intro p hp
    simp only [setQueue, List.mem_singleton] at hp
    subst hp
    exact hq
  | cons x xs ih =>
    intro p hp
    simp only [setQueue] at hp
    split_ifs at hp with hx
    · rcases List.mem_cons.1 hp with rfl | hmem
      · exact hq
      · exact h p (List.mem_cons_of_mem _ hmem)
    · rcases List.mem_cons.1 hp with rfl | hmem
      · exact h p (List.mem_cons_self _ _)
      · exact ih (fun r hr => h r (List.mem_cons_of_mem _ hr)) p hmem

theorem step_buy {st : ReplayState} {t : Transaction} (h : t.type = TxType.BUY) :
    step st t = Except.ok
      { st with
        queues := (setQueue st.queues t.security_id
          (insertLot
            ⟨t.id, t.security_id, t.transaction_date, t.price_per_unit,
              t.quantity, t.quantity⟩
            (getQueue st.queues t.security_id))) } := by
  unfold step
  rw [h]

theorem step_sell {st : ReplayState} {t : Transaction} (h : t.type = TxType.SELL) :
    step st t =
      match matchSell (getQueue st.queues t.security_id) t with
      | Except.error e => Except.error e
      | Except.ok (ms, rest) =>
        Except.ok ⟨setQueue st.queues t.security_id rest, st.«matches» ++ ms⟩ := by
  unfold step
  rw [h]

theorem step_matches {st : ReplayState} {t : Transaction} {st1 : ReplayState}
    (h : step st t = Except.ok st1) :
    ∃ ms, st1.«matches» = st.«matches» ++ ms ∧
      ∀ m ∈ ms, t.type = TxType.SELL ∧ m.sell_transaction_ref = t.id := by
  cases ht : t.type
  case BUY =>
    rw [step_buy ht] at h
    injection h with h1
    subst h1
    exact ⟨[], by simp, by simp⟩
  case SELL =>
    rw [step_sell ht] at h
    cases hms : matchSell (getQueue st.queues t.security_id) t with
    | error e => rw [hms] at h; cases h
    | ok pr =>
      obtain ⟨ms, rest⟩ := pr
      rw [hms] at h
      injection h with h1
      subst h1
      exact ⟨ms, rfl, fun m hm => ⟨rfl, matchSell_ok_refs hms m hm⟩⟩

theorem step_invQ {st : ReplayState} {t : Transaction} {st1 : ReplayState}
    (hq : InvQ st) (h : step st t = Except.ok st1) : InvQ st1 := by
  cases ht : t.type
  case BUY =>
    rw [step_buy ht] at h
    injection h with h1
    subst h1
    exact setQueue_pairwise hq (insertLot_pairwise (getQueue_pairwise hq))
  case SELL =>
    rw [step_sell ht] at h
    cases hms : matchSell (getQueue st.queues t.security_id) t with
    | error e => rw [hms] at h; cases h
    | ok pr =>
      obtain ⟨ms, rest⟩ := pr
      rw [hms] at h
      injection h with h1
      subst h1
      obtain ⟨-, hrest, -⟩ := matchSell_ok_elim hms
      subst hrest
      exact setQueue_pairwise hq
        (consume_rest_pairwise _ _ (getQueue_pairwise hq))

theorem replayAux_matches_extra :
    ∀ (ts : List Transaction) (st st' : ReplayState),
      replayAux st ts = Except.ok st' →
      ∃ extra, st'.«matches» = st.«matches» ++ extra ∧
        ∀ m ∈ extra, ∃ t ∈ ts, t.type = TxType.SELL ∧
          m.sell_transaction_ref = t.id := by
  intro ts
  induction ts with
  | nil =>
    intro st st' h
    injection h with h1
    subst h1
    exact ⟨[], by simp, by simp⟩
  | cons t ts ih =>
    intro st st' h
    unfold replayAux at h
    cases hstep : step st t with
    | error e => rw [hstep] at h; cases h
    | ok st1 =>
      rw [hstep] at h
      obtain ⟨ms1, hms1, hprop1⟩ := step_matches hstep
      obtain ⟨extra2, hex2, hprop2⟩ := ih st1 st' h
      refine ⟨ms1 ++ extra2, by rw [hex2, hms1, List.append_assoc], ?_⟩
      intro m hm
      rcases List.mem_append.1 hm with hmem | hmem
      · exact ⟨t, List.mem_cons_self _ _, hprop1 m hmem⟩
      · obtain ⟨t2, ht2, hp⟩ := hprop2 m hmem
        exact ⟨t2, List.mem_cons_of_mem _ ht2, hp⟩

theorem replay_sell_block :
    ∀ (ts : List Transaction) (st st' : ReplayState),
      replayAux st ts = Except.ok st' →
      InvQ st →
      (∀ t ∈ ts, ∀ m ∈ st.«matches», m.sell_transaction_ref ≠ t.id) →
      (ts.map Transaction.id).Nodup →
      ∀ s ∈ ts, s.type = TxType.SELL →
        ∃ lots ms rest, List.Pairwise lotLe lots ∧
          matchSell lots s = Except.ok (ms, rest) ∧
          st'.«matches».filter (fun m => m.sell_transaction_ref == s.id) = ms := by
  intro ts
  induction ts with
  | nil =>
    intro st st' h hq hdisj hnd s hs
    simp at hs
  | cons t ts ih =>
    intro st st' h hq hdisj hnd s hs hsell
    unfold replayAux at h
    cases hstep : step st t with
    | error e => rw [hstep] at h; cases h
    | ok st1 =>
      rw [hstep] at h
      rw [List.map_cons] at hnd
      rcases List.mem_cons.1 hs with heq | hmem
      · subst heq
        rw [step_sell hsell] at hstep
        cases hms : matchSell (getQueue st.queues s.security_id) s with
        | error e => rw [hms] at hstep; cases hstep
        | ok pr =>
          obtain ⟨ms, rest⟩ := pr
          rw [hms] at hstep
          injection hstep with h1
          refine ⟨getQueue st.queues s.security_id, ms, rest,
            getQueue_pairwise hq, hms, ?_⟩
          obtain ⟨extra, hex, hprop⟩ := replayAux_matches_extra ts st1 st' h
          rw [hex, ← h1]
          have h1f : st.«matches».filter
              (fun m => m.sell_transaction_ref == s.id) = [] := by
            apply List.filter_eq_nil_iff.2
            intro m hm
            simp only [beq_iff_eq]
            exact hdisj s (List.mem_cons_self _ _) m hm
          have h2f : ms.filter (fun m => m.sell_transaction_ref == s.id) = ms := by
            apply List.filter_eq_self.2
            intro m hm
            simp only [beq_iff_eq]
            exact matchSell_ok_refs hms m hm
          have h3f : extra.filter (fun m => m.sell_transaction_ref == s.id) = [] := by
            apply List.filter_eq_nil_iff.2
            intro m hm
            obtain ⟨t2, ht2, -, hid⟩ := hprop m hm
            simp only [beq_iff_eq, hid]
            intro hcontra
            have hmm : s.id ∈ ts.map Transaction.id := by
              rw [← hcontra]
              exact List.mem_map_of_mem _ ht2
            exact (List.nodup_cons.1 hnd).1 hmm
          simp only [List.filter_append, h1f, h2f, h3f,
            List.nil_append, List.append_nil]
      · refine ih st1 st' h (step_invQ hq hstep) ?_ (List.nodup_cons.1 hnd).2
          s hmem hsell
        intro t2 ht2 m hm
        obtain ⟨ms1, hms1, hprop1⟩ := step_matches hstep
        rw [hms1] at hm
        rcases List.mem_append.1 hm with hmm | hmm
        · exact hdisj t2 (List.mem_cons_of_mem _ ht2) m hmm
        · obtain ⟨-, hid⟩ := hprop1 m hmm
          rw [hid]
          intro hcontra
          have hmm2 : t.id ∈ ts.map Transaction.id := by
            rw [hcontra]
            exact List.mem_map_of_mem _ ht2
          exact (List.nodup_cons.1 hnd).1 hmm2

theorem replay_sell_block_top {txs : List Transaction} {ms : List Match}
    (hok : replay txs = Except.ok ms)
    (hnd : (txs.map Transaction.id).Nodup)
    {s : Transaction} (hs : s ∈ txs) (hsell : s.type = TxType.SELL) :
    ∃ lots msb rest, List.Pairwise lotLe lots ∧
      matchSell lots s = Except.ok (msb, rest) ∧
      ms.filter (fun m => m.sell_transaction_ref == s.id) = msb := by
  unfold replay at hok
  cases hrep : replayAux ⟨[], []⟩ (sortTxs txs) with
  | error e => rw [hrep] at hok; cases hok
  | ok st' =>
    rw [hrep] at hok
    injection hok with h1
    subst h1
    have hperm : (sortTxs txs).Perm txs := List.perm_insertionSort txLe txs
    have hnd2 : ((sortTxs txs).map Transaction.id).Nodup :=
      ((hperm.map Transaction.id).nodup_iff).2 hnd
    have hs2 : s ∈ sortTxs txs := (hperm.mem_iff).2 hs
    exact replay_sell_block (sortTxs txs) ⟨[], []⟩ st' hrep
      (by intro p hp; simp at hp)
      (by intro t ht m hm; simp at hm)
      hnd2 s hs2 hsell

theorem replay_fifoExample : replay fifoExampleTxs = Except.ok fifoExampleMatches := by
  decide

/-- C1: for every transaction history with distinct transaction ids,
whenever the capital gains computation succeeds, the quantities matched
for each SELL sum exactly to that SELL quantity; the computation can
only fail with an InsufficientLotsError (the sole error of the
computation), so no SELL is partially matched in a successful report. -/
theorem sell_quantity_conservation :
    ∀ (txs : List Transaction) (ms : List Match),
      replay txs = Except.ok ms →
      (txs.map Transaction.id).Nodup →
      ∀ s ∈ txs, s.type = TxType.SELL →
        ((ms.filter (fun m => m.sell_transaction_ref == s.id)).map
          (fun m => m.quantity_matched)).sum = s.quantity := by
  intro txs ms hok hnd s hs hsell
  obtain ⟨lots, msb, rest, -, hms, hfil⟩ :=
    replay_sell_block_top hok hnd hs hsell
  rw [hfil]
  exact matchSell_ok_sum hms

/-- Witness for C1: on the worked FIFO example the two matches of the
SELL of 120 units sum to exactly 120. -/
theorem sell_quantity_conservation_witness :
    ((fifoExampleMatches.filter
      (fun m => m.sell_transaction_ref == fifoSell.id)).map
      (fun m => m.quantity_matched)).sum = fifoSell.quantity :=
  sell_quantity_conservation fifoExampleTxs fifoExampleMatches
    replay_fifoExample (by decide) fifoSell (by decide) rfl

/-- C2: (a) in every successful replay with distinct transaction ids,
the matches of each SELL consume lots in non-decreasing
acquisition-date order, tie-broken by the BUY transaction id; (b) the
matches of each SELL are exactly the matches built from
`consume(sell.quantity)` on the FIFO-sorted lot queue of its security
at that point of the replay; (c) for every lot queue, the lots
`consume` drains are exactly the first takings-count lots of the queue
restricted to positive remaining quantity — so the oldest lot with
remaining quantity is always drained first and a later-acquired lot is
never consumed while an earlier one still has remaining quantity —,
the takings are chained in queue (FIFO) order, every taking except
possibly the last drains its lot completely, and the total taken is
the requested quantity capped by the total remaining quantity (oldest
lots drained first until the request is satisfied or lots run out). -/
theorem fifo_consumption_order :
    (∀ (txs : List Transaction) (ms : List Match),
      replay txs = Except.ok ms →
      (txs.map Transaction.id).Nodup →
      ∀ s ∈ txs, s.type = TxType.SELL →
        List.Chain' (fun a b => keyLe (matchKey a) (matchKey b))
          (ms.filter (fun m => m.sell_transaction_ref == s.id))) ∧
    (∀ (txs : List Transaction) (ms : List Match),
      replay txs = Except.ok ms →
      (txs.map Transaction.id).Nodup →
      ∀ s ∈ txs, s.type = TxType.SELL →
        ∃ lots rest, List.Pairwise lotLe lots ∧
          matchSell lots s = Except.ok
            (ms.filter (fun m => m.sell_transaction_ref == s.id), rest) ∧
          ms.filter (fun m => m.sell_transaction_ref == s.id)
            = ((consume lots s.quantity).1).map
                (fun p => mkMatch s p.1 p.2)) ∧
    (∀ (lots : List Lot) (need : Nat), List.Pairwise lotLe lots →
      (consume lots need).1.map (fun p => p.1)
        = (lots.filter (fun l => 0 < l.remaining_quantity)).take
            ((consume lots need).1.length) ∧
      List.Chain' (fun a b => lotLe a.1 b.1) (consume lots need).1 ∧
      (∀ x ∈ ((consume lots need).1).dropLast, x.2 = x.1.remaining_quantity) ∧
      (((consume lots need).1).map (fun p => p.2)).sum
        = min need ((lots.map (fun l => l.remaining_quantity)).sum)) := by
  refine ⟨?_, ?_, ?_⟩
  · intro txs ms hok hnd s hs hsell
    obtain ⟨lots, msb, rest, hpair, hms, hfil⟩ :=
      replay_sell_block_top hok hnd hs hsell
    rw [hfil]
    exact matchSell_ok_chain hpair hms
  · intro txs ms hok hnd s hs hsell
    obtain ⟨lots, msb, rest, hpair, hms, hfil⟩ :=
      replay_sell_block_top hok hnd hs hsell
    refine ⟨lots, rest, hpair, ?_, ?_⟩
    · rw [hfil]
      exact hms
    · rw [hfil]
      exact (matchSell_ok_elim hms).1
  · intro lots need hpair
    exact ⟨consume_fst_take lots need, consume_chain lots need hpair,
      consume_drain lots need, consume_sum lots need⟩

/-- Witness for C2: on the worked FIFO example the two matches of the
SELL consume the 2023-01-01 lot before the 2023-06-01 lot. -/
theorem fifo_consumption_order_witness :
    List.Chain' (fun a b => keyLe (matchKey a) (matchKey b))
      (fifoExampleMatches.filter
        (fun m => m.sell_transaction_ref == fifoSell.id)) :=
  fifo_consumption_order.1 fifoExampleTxs fifoExampleMatches
    replay_fifoExample (by decide) fifoSell (by decide) rfl

theorem step_matches_props {st : ReplayState} {t : Transaction} {st1 : ReplayState}
    (h : step st t = Except.ok st1) :
    ∀ m ∈ st1.«matches», m ∈ st.«matches» ∨
      (m.gain_loss = (m.quantity_matched : Rat) * (m.sell_price - m.buy_price) ∧
       (m.term = Term.LONG ↔ longTermThresholdDays < m.holding_period_days)) := by
  cases ht : t.type
  case BUY =>
    rw [step_buy ht] at h
    injection h with h1
    subst h1
    exact fun m hm => Or.inl hm
  case SELL =>
    rw [step_sell ht] at h
    cases hms : matchSell (getQueue st.queues t.security_id) t with
    | error e => rw [hms] at h; cases h
    | ok pr =>
      obtain ⟨ms, rest⟩ := pr
      rw [hms] at h
      injection h with h1
      subst h1
      intro m hm
      rcases List.mem_append.1 hm with hmm | hmm
      · exact Or.inl hmm
      · exact Or.inr (matchSell_ok_props hms m hmm)

theorem replayAux_matches_props :
    ∀ (ts : List Transaction) (st st' : ReplayState),
      replayAux st ts = Except.ok st' →
      ∀ m ∈ st'.«matches», m ∈ st.«matches» ∨
        (m.gain_loss = (m.quantity_matched : Rat) * (m.sell_price - m.buy_price) ∧
         (m.term = Term.LONG ↔ longTermThresholdDays < m.holding_period_days)) := by
  intro ts
  induction ts with
  | nil =>
    intro st st' h
    injection h with h1
    subst h1
    exact fun m hm => Or.inl hm
  | cons t ts ih =>
    intro st st' h
    unfold replayAux at h
    cases hstep : step st t with
    | error e => rw [hstep] at h; cases h
    | ok st1 =>
      rw [hstep] at h
      intro m hm
      rcases ih st1 st' h m hm with hmm | hp
      · exact step_matches_props hstep m hmm
      · exact Or.inr hp

theorem replay_matches_props {txs : List Transaction} {ms : List Match}
    (hok : replay txs = Except.ok ms) :
    ∀ m ∈ ms,
      m.gain_loss = (m.quantity_matched : Rat) * (m.sell_price - m.buy_price) ∧
      (m.term = Term.LONG ↔ longTermThresholdDays < m.holding_period_days) := by
  unfold replay at hok
  cases hrep : replayAux ⟨[], []⟩ (sortTxs txs) with
  | error e => rw [hrep] at hok; cases hok
  | ok st' =>
    rw [hrep] at hok
    injection hok with h1
    subst h1
    intro m hm
    rcases replayAux_matches_props (sortTxs txs) ⟨[], []⟩ st' hrep m hm with
      hmm | hp
    · simp at hmm
    · exact hp

/-- C3: (a) whenever replay reaches a SELL whose quantity exceeds the
total remaining lot quantity of its security, the whole computation
stops with an InsufficientLotsError naming the offending transaction,
its security and the shortfall — no matches after that point are
produced; (b) on BUY(10), SELL(15) (plus a healthy second security) the
report is the error with shortfall 5: the entire report is aborted, not
just the offending security, and no partial report is returned. -/
theorem oversell_aborts_report :
    (∀ (st : ReplayState) (s : Transaction) (ts : List Transaction),
      s.type = TxType.SELL →
      ((getQueue st.queues s.security_id).map
        (fun l => l.remaining_quantity)).sum < s.quantity →
      replayAux st (s :: ts) = Except.error
        ⟨s.id, s.security_id,
          s.quantity - ((getQueue st.queues s.security_id).map
            (fun l => l.remaining_quantity)).sum⟩) ∧
    computeReport 2023 oversellExampleTxs = Except.error ⟨2, 1, 5⟩ := by
  constructor
  · intro st s ts hsell hlt
    unfold replayAux
    rw [step_sell hsell, matchSell_error_of_shortfall hlt]
  · decide

/-- Witness for C3: a SELL of 15 units against an empty ledger aborts
immediately with shortfall 15. -/
theorem oversell_aborts_report_witness :
    replayAux ⟨[], []⟩ [⟨2, 1, TxType.SELL, 15, 90, ⟨2023, 6, 1⟩⟩]
      = Except.error ⟨2, 1, 15⟩ :=
  oversell_aborts_report.1 ⟨[], []⟩ ⟨2, 1, TxType.SELL, 15, 90, ⟨2023, 6, 1⟩⟩
    [] rfl (by decide)

/-- Counterexample to C4 as stated: on the worked example the holding
periods are 396 and 245 days, so the first match is held 396 days, not
397 — the claimed pair (397, 245) is impossible under any single
calendar-day difference convention. -/
theorem fifo_example_holding_counterexample :
    (replay fifoExampleTxs).map
      (fun ms => ms.map (fun m => m.holding_period_days))
      = Except.ok [396, 245] ∧ (396 : Nat) ≠ 397 := by
  constructor
  · decide
  · decide

/-- C4 (amended): on BUY(100@100, 2023-01-01), BUY(50@120, 2023-06-01),
SELL(120@150, 2024-02-01) the engine emits exactly the two matches
100 units from lot 1 (gain 5000, held 396 days, LONG) and 20 units from
lot 2 (gain 600, held 245 days, SHORT), and the financial year 2023
report totals are 5600 / 5000 long / 600 short, with
holding_period_days the exclusive calendar-day difference between sell
date and acquisition date. -/
theorem fifo_example_report :
    computeReport 2023 fifoExampleTxs = Except.ok
      { financial_year := 2023
        total_gain_loss := 5600
        short_term_gain_loss := 600
        long_term_gain_loss := 5000
        securities := [{ security_id := 1
                         total_gain_loss := 5600
                         short_term_gain_loss := 600
                         long_term_gain_loss := 5000
                         «matches» := fifoExampleMatches }] } := by
  decide

/-- C5: every match of a successful replay is classified long-term
exactly when its holding period exceeds 365 days; the classification is
per match, so the single SELL of the worked example yields one
long-term and one short-term match in the same report. -/
theorem long_term_classification :
    (∀ (txs : List Transaction) (ms : List Match),
      replay txs = Except.ok ms →
      ∀ m ∈ ms, (m.term = Term.LONG ↔ 365 < m.holding_period_days)) ∧
    (replay fifoExampleTxs).map
      (fun ms => ms.map (fun m => (m.sell_transaction_ref, m.term)))
      = Except.ok [(3, Term.LONG), (3, Term.SHORT)] := by
  constructor
  · intro txs ms hok m hm
    exact (replay_matches_props hok m hm).2
  · decide

/-- Witness for C5: the first match of the worked example is long-term
and indeed held more than 365 days. -/
theorem long_term_classification_witness :
    fifoMatch1.term = Term.LONG ↔ 365 < fifoMatch1.holding_period_days :=
  long_term_classification.1 fifoExampleTxs fifoExampleMatches
    replay_fifoExample fifoMatch1 (by decide)

theorem replay_lossExample :
    replay lossExampleTxs = Except.ok [lossExampleMatch] := by
  decide

/-- C7: every match of a successful replay has
gain_loss = quantity_matched * (sell_price - buy_price) as exact
rational arithmetic; on BUY(10@200), SELL(10@150) the single match has
gain_loss -500 and the financial-year totals are -500 (the loss reduces
the total instead of being floored at zero). -/
theorem gain_loss_formula :
    (∀ (txs : List Transaction) (ms : List Match),
      replay txs = Except.ok ms →
      ∀ m ∈ ms,
        m.gain_loss
          = (m.quantity_matched : Rat) * (m.sell_price - m.buy_price)) ∧
    computeReport 2023 lossExampleTxs = Except.ok
      { financial_year := 2023
        total_gain_loss := -500
        short_term_gain_loss := -500
        long_term_gain_loss := 0
        securities := [{ security_id := 1
                         total_gain_loss := -500
                         short_term_gain_loss := -500
                         long_term_gain_loss := 0
                         «matches» := [lossExampleMatch] }] } := by
  constructor
  · intro txs ms hok m hm
    exact (replay_matches_props hok m hm).1
  · decide

/-- Witness for C7: the loss-example match satisfies the gain formula,
with value -500. -/
theorem gain_loss_formula_witness :
    lossExampleMatch.gain_loss
      = (lossExampleMatch.quantity_matched : Rat) *
        (lossExampleMatch.sell_price - lossExampleMatch.buy_price) :=
  gain_loss_formula.1 lossExampleTxs [lossExampleMatch]
    replay_lossExample lossExampleMatch (by decide)

theorem mem_dedupFirst (l : List Nat) :
    ∀ (seen : List Nat) (a : Nat),
      a ∈ dedupFirst seen l ↔ a ∈ l ∧ a ∉ seen := by
  induction l with
  | nil => intro seen a; simp [dedupFirst]
  | cons b bs ih =>
    intro seen a
    simp only [dedupFirst]
    split_ifs with hb
    · rw [ih]
      constructor
      · rintro ⟨h1, h2⟩
        exact ⟨List.mem_cons_of_mem _ h1, h2⟩
      · rintro ⟨h1, h2⟩
        rcases List.mem_cons.1 h1 with rfl | h1
        · exact absurd hb h2
        · exact ⟨h1, h2⟩
    · simp only [List.mem_cons, ih]
      constructor
      · rintro (rfl | ⟨h1, h2⟩)
        · exact ⟨Or.inl rfl, hb⟩
        · exact ⟨Or.inr h1, fun hc => h2 (Or.inr hc)⟩
      · rintro ⟨h1, h2⟩
        rcases h1 with rfl | h1
        · exact Or.inl rfl
        · by_cases hab : a = b
          · exact Or.inl hab
          · exact Or.inr ⟨h1, fun hc => hc.elim hab h2⟩

/-- C6: (a) for every well-formed date, the financial year assigned by
the aggregator is exactly the year Y with Y-04-01 ≤ date ≤ (Y+1)-03-31
inclusive; (b) a match appears in the report of a financial year if and
only if it is a replay match whose sell date falls in that financial
year; (c) at the boundary, 2024-03-31 belongs to FY 2023 and 2024-04-01
to FY 2024. -/
theorem financial_year_bucketing :
    (∀ (y : Nat) (d : Date), validDate d →
      (fyOf d = y ↔ (dateLe ⟨y, 4, 1⟩ d ∧ dateLe d ⟨y + 1, 3, 31⟩))) ∧
    (∀ (fy : Nat) (txs : List Transaction) (rep : FinancialYearReport)
        (ms : List Match),
      computeReport fy txs = Except.ok rep →
      replay txs = Except.ok ms →
      ∀ m : Match, (∃ sb ∈ rep.securities, m ∈ sb.«matches») ↔
        (m ∈ ms ∧ fyOf m.sell_date = fy)) ∧
    fyOf ⟨2024, 3, 31⟩ = 2023 ∧ fyOf ⟨2024, 4, 1⟩ = 2024 := by
  refine ⟨?_, ?_, by decide, by decide⟩
  · intro y d hv
    obtain ⟨hy, hm1, hm2, hd1, hd2⟩ := hv
    unfold fyOf dateLe
    dsimp only
    split_ifs with h4 <;> omega
  · intro fy txs rep ms hrep hms m
    unfold computeReport at hrep
    rw [hms] at hrep
    injection hrep with h1
    subst h1
    constructor
    · rintro ⟨sb, hsb, hmem⟩
      obtain ⟨sid, hsid, rfl⟩ := List.mem_map.1 hsb
      have hf := (List.mem_filter.1 hmem).1
      have hf2 := List.mem_filter.1 hf
      exact ⟨hf2.1, by simpa using hf2.2⟩
    · rintro ⟨hmm, hfy⟩
      have hmf : m ∈ ms.filter (fun mm => fyOf mm.sell_date == fy) :=
        List.mem_filter.2 ⟨hmm, by simpa using hfy⟩
      refine ⟨mkBreakdown m.security_id
        (ms.filter (fun mm => fyOf mm.sell_date == fy)), ?_, ?_⟩
      · apply List.mem_map_of_mem
        apply (mem_dedupFirst _ _ _).2
        exact ⟨List.mem_map_of_mem _ hmf, by simp⟩
      · exact List.mem_filter.2 ⟨hmf, by simp⟩

/-- Witness for C6: instantiating the characterisation at 2024-03-31,
which is a valid date, the span condition for FY 2023 is equivalent to
the bucket assignment. -/
theorem financial_year_bucketing_witness :
    fyOf ⟨2024, 3, 31⟩ = 2023 ↔
      (dateLe ⟨2023, 4, 1⟩ ⟨2024, 3, 31⟩ ∧
       dateLe ⟨2024, 3, 31⟩ ⟨2024, 3, 31⟩) :=
  financial_year_bucketing.1 2023 ⟨2024, 3, 31⟩ (by decide)

theorem jsFalsy_iff_none (o : Option Rat) :
    jsFalsy o = true ↔ (if jsFalsy o then none else o : Option Rat) = none := by
  rcases o with _ | p
  · simp [jsFalsy]
  · by_cases hp : p = 0 <;> simp [jsFalsy, hp]

theorem sortTxs_eq_of_perm {txs txs2 : List Transaction}
    (hperm : txs.Perm txs2) (hnd : (txs.map Transaction.id).Nodup) :
    sortTxs txs = sortTxs txs2 := by
  haveI : IsAntisymm Transaction
      (fun a b => txLe a b ∧ txKey a ≠ txKey b) := by
    constructor
    intro a b h1 h2
    exfalso
    apply h1.2
    have ha := h1.1
    have hb := h2.1
    unfold txLe keyLe at ha hb
    have : txKey a = txKey b := by
      rcases hKa : txKey a with ⟨x1, x2⟩
      rcases hKb : txKey b with ⟨y1, y2⟩
      rw [hKa, hKb] at ha hb
      simp only [Prod.mk.injEq]
      omega
    exact this
  have hkey : (txs.map txKey).Nodup := by
    apply List.Nodup.of_map Prod.snd
    rw [List.map_map]
    exact hnd
  have hperm1 : (sortTxs txs).Perm txs := List.perm_insertionSort txLe txs
  have hperm2 : (sortTxs txs2).Perm txs2 := List.perm_insertionSort txLe txs2
  have hp : (sortTxs txs).Perm (sortTxs txs2) :=
    (hperm1.trans hperm).trans hperm2.symm
  have hkey1 : ((sortTxs txs).map txKey).Nodup :=
    ((hperm1.map txKey).nodup_iff).2 hkey
  have hkey2 : ((sortTxs txs2).map txKey).Nodup :=
    ((hperm2.map txKey).nodup_iff).2
      (((hperm.map txKey).nodup_iff).1 hkey)
  have hs1 : List.Pairwise (fun a b => txLe a b ∧ txKey a ≠ txKey b)
      (sortTxs txs) :=
    (List.sorted_insertionSort txLe txs).and (List.pairwise_map.1 hkey1)
  have hs2 : List.Pairwise (fun a b => txLe a b ∧ txKey a ≠ txKey b)
      (sortTxs txs2) :=
    (List.sorted_insertionSort txLe txs2).and (List.pairwise_map.1 hkey2)
  exact List.eq_of_perm_of_sorted hp hs1 hs2

/-- C8: the capital gains computation is a pure function of the input
snapshot: recomputing on the identical transaction list yields the
identical report, and the result does not depend on the order in which
the (distinct-id) transactions are presented, since the engine replays
a deterministically sorted copy. -/
theorem compute_report_deterministic :
    ∀ (fy : Nat) (txs txs2 : List Transaction),
      computeReport fy txs = computeReport fy txs ∧
      (txs.Perm txs2 → (txs.map Transaction.id).Nodup →
        computeReport fy txs = computeReport fy txs2) := by
  intro fy txs txs2
  refine ⟨rfl, fun hperm hnd => ?_⟩
  unfold computeReport replay
  rw [sortTxs_eq_of_perm hperm hnd]

/-- Witness for C8: presenting the worked example in a reshuffled order
yields the identical financial year 2023 report. -/
theorem compute_report_deterministic_witness :
    computeReport 2023 fifoExampleTxs
      = computeReport 2023 [fifoBuy2, fifoBuy1, fifoSell] :=
  (compute_report_deterministic 2023 fifoExampleTxs
    [fifoBuy2, fifoBuy1, fifoSell]).2 (by decide) (by decide)

/-- C9 (amended): in the frontend price waterfall, the ISIN endpoint is
queried only when no usable (truthy) price came out of the ticker stage
and an ISIN exists; no third lookup is ever performed (FALLBACK exists
only as a display label); and the stored outcome either carries a price
or is the explicit unavailable value (error flag set exactly when no
price is stored). -/
theorem price_waterfall :
    ∀ env : PriceEnv,
      (PriceMethod.ISIN ∈ (fetchSecurityPrice env).1 →
        ((env.hasTicker = false ∨ env.tickerResp = none ∨
          env.tickerResp = some 0) ∧ env.hasIsin = true)) ∧
      PriceMethod.FALLBACK ∉ (fetchSecurityPrice env).1 ∧
      ((fetchSecurityPrice env).2.error = true ↔
        (fetchSecurityPrice env).2.price = none) := by
  intro env
  obtain ⟨ht, hi, tr, ir⟩ := env
  refine ⟨?_, ?_, ?_⟩
  · cases ht
    · cases hi <;> simp [fetchSecurityPrice, jsFalsy]
    · cases hi
      · rcases tr with _ | p <;> simp [fetchSecurityPrice, jsFalsy]
      · rcases tr with _ | p
        · simp [fetchSecurityPrice, jsFalsy]
        · by_cases hp : p = 0 <;> simp [fetchSecurityPrice, jsFalsy, hp]
  · simp only [fetchSecurityPrice, List.mem_append]
    rintro (hmem | hmem) <;> revert hmem <;> split_ifs <;> simp
  · simp only [fetchSecurityPrice]
    exact jsFalsy_iff_none _

/-- Counterexample to C9 as stated: when both the ticker and the ISIN
lookups fail there is no further fallback lookup — exactly two lookups
are attempted and the stored outcome is the explicit unavailable
value. -/
theorem price_waterfall_counterexample :
    fetchSecurityPrice ⟨true, true, none, none⟩
      = ([PriceMethod.TICKER, PriceMethod.ISIN],
         { price := none, method := none, error := true }) ∧
    PriceMethod.FALLBACK ∉ (fetchSecurityPrice ⟨true, true, none, none⟩).1 := by
  constructor
  · rfl
  · decide

/-- Witness for C9: with a ticker whose lookup fails and a working ISIN,
the ISIN stage runs, and indeed the ticker stage produced no price. -/
theorem price_waterfall_witness :
    ((⟨true, true, none, some 5⟩ : PriceEnv).hasTicker = false ∨
      (⟨true, true, none, some 5⟩ : PriceEnv).tickerResp = none ∨
      (⟨true, true, none, some 5⟩ : PriceEnv).tickerResp = some 0) ∧
    (⟨true, true, none, some 5⟩ : PriceEnv).hasIsin = true :=
  (price_waterfall ⟨true, true, none, some 5⟩).1 (by decide)

/-- C10: the dashboard row and summary computations, rerun with every
division replaced by a division that refuses a zero divisor, succeed
and agree with the source computation on every input: the quantity > 0
and total_invested > 0 guards make every quotient safe, including empty
portfolios and fully sold-out holdings. -/
theorem dashboard_division_guards :
    (∀ (stock : StockHolding) (cv : Rat),
      holdingRowChecked stock cv = some (holdingRow stock cv)) ∧
    (∀ (hs : List StockHolding) (r u : Rat),
      portfolioSummaryChecked hs r u = some (portfolioSummary hs r u)) := by
  constructor
  · intro stock cv
    unfold holdingRowChecked holdingRow safeDiv
    by_cases hq : 0 < stock.quantity
    · by_cases hi : 0 < stock.total_invested
      · simp [hq, hi, hq.ne', hi.ne']
      · simp [hq, hi, hq.ne']
    · by_cases hi : 0 < stock.total_invested
      · simp [hq, hi, hi.ne']
      · simp [hq, hi]
  · intro hs r u
    unfold portfolioSummaryChecked portfolioSummary safeDiv
    by_cases hi : 0 < (hs.map (fun s => s.total_invested)).sum
    · simp [hi, hi.ne']
    · simp [hi]

end StockApp
